import Mathlib

/-!
Verification of the parallel threshold-counting benchmark engine
(`src/cpu_caches/parallel_chunks.cpp` and its variant translation unit),
together with the statistics helpers (`src/utils/math.h`,
`src/cpu_caches/math.h`).

The embedding is shallow: C++ `std::vector<std::vector<int>>` becomes
`List (List Int)`; the worker loops become folds; the deterministic final
value of each concurrent run is modelled directly, which is justified
because in `countWithContainer` slot `t` is written only by worker `t`,
and in `countWithLocalCounter` the atomic adds commute and the join
barrier orders every add before the final load.
-/

namespace Perf

/-- `using Matrix = std::vector<std::vector<int>>;` -/
abbrev Matrix : Type := List (List Int)

/-- `src/cpu_caches/parallel_chunks.cpp`, `generateMatrix`:
`matrix[i][j] = (i + j) % 256`. -/
def generateMatrix (rows cols : Nat) : Matrix :=
  (List.range rows).map (fun i => (List.range cols).map (fun j => (((i + j) % 256 : Nat) : Int)))

namespace Variant

/-- `src/unnamed/part_001`, `generateMatrix`:
`return Matrix( rows, std::vector<int>(cols, 150) );` — every cell is 150. -/
def generateMatrix (rows cols : Nat) : Matrix :=
  List.replicate rows (List.replicate cols (150 : Int))

end Variant

/-- The inner per-row loop shared by both strategies' workers:
`for (int value : matrix[i]) if (value > threshold) ++counter;`
started from counter value `c`. -/
def rowScan (threshold : Int) (c : Nat) (row : List Int) : Nat :=
  row.foldl (fun c value => if value > threshold then c + 1 else c) c

/-- Number of elements of one row strictly greater than the threshold. -/
def rowCount (threshold : Int) (row : List Int) : Nat :=
  rowScan threshold 0 row

/-- Worker body of `countWithLocalCounter`: scan rows `startRow ≤ i < endRow`
of `matrix`, accumulating `localCount` (starting at 0) across the nested
loops. `matrix[i]` is total in C++ because `endRow ≤ matrix.size()`;
out-of-range indices (never reached) default to the empty row. -/
def workerLocalCount (matrix : Matrix) (threshold : Int) (startRow endRow : Nat) : Nat :=
  (List.range' startRow (endRow - startRow)).foldl
    (fun localCount i => rowScan threshold localCount (matrix.getD i [])) 0

/-- `countWithLocalCounter(matrix, threshold, numThreads)`:
`chunkSize = (numRows + numThreads - 1) / numThreads`; worker `t` scans
`[t*chunkSize, min(t*chunkSize + chunkSize, numRows))` into a local
counter and performs one `globalCount.fetch_add(localCount)`; after the
join barrier the accumulated global count is returned.  The adds commute,
so the final value is the ordinary sum of the workers' local counts. -/
def countWithLocalCounter (matrix : Matrix) (threshold : Int) (numThreads : Nat) : Nat :=
  let numRows := matrix.length
  let chunkSize := (numRows + numThreads - 1) / numThreads
  (List.range numThreads).foldl
    (fun globalCount t =>
      let startRow := t * chunkSize
      let endRow := min (startRow + chunkSize) numRows
      globalCount + workerLocalCount matrix threshold startRow endRow)
    0

/-- Worker body of `countWithContainer`, as written in the source: state is
`(localCount, slot)` where `slot` is the worker's own cell `results[t]` of
the shared slot array (written by no other thread).  The hot loop executes
`++results[t]` — it increments `slot`, not `localCount` — and after the
scan the worker executes `results[t] = localCount`, overwriting the slot.
The first component of the returned pair is the state at the end of the
scan loop, before that final overwrite. -/
def containerWorker (matrix : Matrix) (threshold : Int) (startRow endRow : Nat) : Nat × Nat :=
  (List.range' startRow (endRow - startRow)).foldl
    (fun s i =>
      (matrix.getD i []).foldl
        (fun s value => if value > threshold then (s.1, s.2 + 1) else s) s)
    (0, 0)

/-- The value worker `t` finally publishes into `results[t]`: the statement
`results[ t ] = localCount;` stores the (never-incremented) local counter. -/
def containerSlotFinal (matrix : Matrix) (threshold : Int) (startRow endRow : Nat) : Nat :=
  (containerWorker matrix threshold startRow endRow).1

/-- `countWithContainer(matrix, threshold, numThreads)`: after all workers
join, the slots are summed single-threaded (`totalCount += count`). -/
def countWithContainer (matrix : Matrix) (threshold : Int) (numThreads : Nat) : Nat :=
  let numRows := matrix.length
  let chunkSize := (numRows + numThreads - 1) / numThreads
  (List.range numThreads).foldl
    (fun totalCount t =>
      let startRow := t * chunkSize
      let endRow := min (startRow + chunkSize) numRows
      totalCount + containerSlotFinal matrix threshold startRow endRow)
    0

/-- The sequential reference scan: every row in order, one running counter. -/
def sequentialCount (matrix : Matrix) (threshold : Int) : Nat :=
  matrix.foldl (fun c row => rowScan threshold c row) 0

/-- The partition computed by both counting functions: `numThreads` ranges,
worker `t` owning `[t*chunkSize, min(t*chunkSize + chunkSize, numRows))`
(`src/unnamed/part_001` lines 259–264 and the identical lines of
`src/cpu_caches/parallel_chunks.cpp`). -/
def partition (rows numThreads : Nat) : List (Nat × Nat) :=
  let chunkSize := (rows + numThreads - 1) / numThreads
  (List.range numThreads).map
    (fun t => (t * chunkSize, min (t * chunkSize + chunkSize) rows))

/-- `x` lies in the half-open range `[p.1, p.2)`. -/
def covers (p : Nat × Nat) (x : Nat) : Bool :=
  decide (p.1 ≤ x) && decide (x < p.2)

/-- Some range of the list contains `x`. -/
def coveredBy (ranges : List (Nat × Nat)) (x : Nat) : Bool :=
  ranges.any (fun p => covers p x)

/-- Failure modes of a `countWithContainer` call on an out-of-domain thread
count, together with the `InvalidArgument` of the specification's taxonomy
(§7), which no code path produces. -/
inductive RunFailure where
  | invalidArgument
  | divisionByZero
  | allocationFailure
  deriving DecidableEq

/-- `countWithContainer` as invoked with a C++ `int numThreads`, tracking
what the source does on non-positive thread counts.  The source performs no
validation: for `numThreads < 0` the first failing operation is
`std::vector<long long> results(numThreads, 0)`, whose size argument
converts to an enormous `size_t` (allocation failure); for
`numThreads == 0` the vector is empty and the next statement
`int chunkSize = (numRows + numThreads - 1) / numThreads` divides by zero.
Both failures happen before any thread is spawned.  `rows < 0` cannot
arise: the row count is `matrix.size()`. -/
def countWithContainerRun (matrix : Matrix) (threshold : Int) (numThreads : Int) :
    Except RunFailure Nat :=
  if numThreads < 0 then .error .allocationFailure
  else if numThreads = 0 then .error .divisionByZero
  else .ok (countWithContainer matrix threshold numThreads.toNat)

/-- `src/utils/math.h`, `calculateAverage`: `sum / times.size()`.  Doubles
are modelled as reals; on the empty list the C++ division `0.0 / 0` yields
NaN, which the real-valued model (where `x / 0 = 0`) renders as `0` — in
neither reading does the function fail. -/
noncomputable def calculateAverage (times : List ℝ) : ℝ :=
  (times.foldl (fun sum t => sum + t) 0) / times.length

/-- `src/utils/math.h`, `calculateStdDev` (same body as
`src/cpu_caches/math.h`, `computeStdDev`):
`sqrt(sumSq / times.size())` with `sumSq = Σ (t - avg)²` accumulated by the
loop. -/
noncomputable def calculateStdDev (times : List ℝ) (avg : ℝ) : ℝ :=
  Real.sqrt ((times.foldl (fun sumSq t => sumSq + (t - avg) * (t - avg)) 0) / times.length)

/-- The statistics pair as the benchmark code computes it: the mean first,
then the standard deviation about that mean. -/
noncomputable def summarize (samples : List ℝ) : ℝ × ℝ :=
  (calculateAverage samples, calculateStdDev samples (calculateAverage samples))

/-- Error of the specification's statistics contract (§4.6). -/
inductive StatError where
  | emptyInput
  deriving DecidableEq

/-- Modelled from the spec (§4.6): sample mean, written from the spec's
words rather than the code. -/
noncomputable def specMean (samples : List ℝ) : ℝ :=
  samples.sum / samples.length

/-- Modelled from the spec (§4.6): population standard deviation (divide
by `N`, not `N-1`), written from the spec's words rather than the code. -/
noncomputable def specStdDev (samples : List ℝ) : ℝ :=
  Real.sqrt ((samples.map (fun x => (x - specMean samples) ^ 2)).sum / samples.length)

/-- Modelled from the spec (§4.6): `summarize(samples) → {mean, stddev}`,
failing with `EmptyInput` if `samples` is empty. -/
noncomputable def summarizeSpec (samples : List ℝ) : Except StatError (ℝ × ℝ) :=
  if samples.isEmpty then .error .emptyInput
  else .ok (specMean samples, specStdDev samples)

/-! ### Generic fold and sum lemmas -/

/-- A left fold that only adds `g` of each element equals the starting value
plus the sum of the mapped list. -/
theorem foldl_add_eq {α M : Type} [AddCommMonoid M] (g : α → M) :
    ∀ (l : List α) (c : M), l.foldl (fun s t => s + g t) c = c + (l.map g).sum := by
  intro l
  induction l with
  | nil => intro c; simp
  | cons x xs ih =>
    intro c
    simp only [List.foldl_cons, List.map_cons, List.sum_cons, ih, add_assoc]

/-- Sum of `g` mapped over `List.range n` as a `Finset.range` sum. -/
theorem range_map_sum {M : Type} [AddCommMonoid M] (g : Nat → M) :
    ∀ n : Nat, ((List.range n).map g).sum = ∑ t ∈ Finset.range n, g t := by
  intro n
  induction n with
  | zero => simp
  | succ n ih =>
    rw [List.range_succ, List.map_append, List.sum_append, ih, Finset.sum_range_succ]
    simp

/-- Sum of `g` mapped over `List.range' a n` as a `Finset.Ico` sum. -/
theorem range'_map_sum {M : Type} [AddCommMonoid M] (g : Nat → M) :
    ∀ (n a : Nat), ((List.range' a n).map g).sum = ∑ i ∈ Finset.Ico a (a + n), g i := by
  intro n
  induction n with
  | zero => intro a; simp
  | succ n ih =>
    intro a
    rw [List.range'_succ, List.map_cons, List.sum_cons, ih]
    rw [Finset.sum_eq_sum_Ico_succ_bot (by omega : a < a + (n + 1))]
    congr 1
    apply Finset.sum_congr _ (fun x _ => rfl)
    congr 1
    omega

/-- Indexed `Finset.range` sum over `getD` equals the sum over the list. -/
theorem sum_range_getD {α : Type} (d : α) (g : α → Nat) :
    ∀ m : List α, ∑ i ∈ Finset.range m.length, g (m.getD i d) = (m.map g).sum := by
  intro m
  induction m with
  | nil => simp
  | cons x xs ih =>
    rw [List.length_cons, Finset.sum_range_succ']
    simp only [List.getD_cons_succ, List.getD_cons_zero, ih, List.map_cons, List.sum_cons]
    omega

/-! ### Row scan and worker lemmas -/

theorem rowScan_eq (threshold : Int) :
    ∀ (row : List Int) (c : Nat), rowScan threshold c row = c + rowCount threshold row := by
  intro row
  induction row with
  | nil => intro c; simp [rowScan, rowCount]
  | cons v vs ih =>
    intro c
    simp only [rowScan, rowCount, List.foldl_cons] at ih ⊢
    by_cases h : v > threshold
    · rw [if_pos h, if_pos h, ih, ih 1]
      omega
    · rw [if_neg h, if_neg h, ih, ih 0]

/-- The local counter accumulated by a worker of `countWithLocalCounter`
equals the sum of the per-row counts over its half-open row range. -/
theorem workerLocalCount_eq (matrix : Matrix) (threshold : Int) (a b : Nat) :
    workerLocalCount matrix threshold a b
      = ∑ i ∈ Finset.Ico a b, rowCount threshold (matrix.getD i []) := by
  unfold workerLocalCount
  have hbody : (fun (localCount : Nat) (i : Nat) =>
      rowScan threshold localCount (matrix.getD i []))
      = fun localCount i => localCount + rowCount threshold (matrix.getD i []) := by
    funext localCount i
    exact rowScan_eq threshold _ localCount
  rw [hbody, foldl_add_eq, range'_map_sum]
  rw [zero_add]
  apply Finset.sum_congr _ (fun x _ => rfl)
  apply Finset.ext
  intro x
  simp only [Finset.mem_Ico]
  omega

theorem sequentialCount_eq (matrix : Matrix) (threshold : Int) :
    sequentialCount matrix threshold
      = ∑ i ∈ Finset.range matrix.length, rowCount threshold (matrix.getD i []) := by
  unfold sequentialCount
  have hbody : (fun (c : Nat) (row : List Int) => rowScan threshold c row)
      = fun c row => c + rowCount threshold row := by
    funext c row
    exact rowScan_eq threshold row c
  rw [hbody, foldl_add_eq, zero_add, sum_range_getD]

/-! ### Chunk coverage -/

/-- Ceiling-division chunking covers all rows:
`rows ≤ numThreads * ((rows + numThreads - 1) / numThreads)` for `numThreads ≥ 1`. -/
theorem rows_le_chunk_mul (rows numThreads : Nat) (hN : 1 ≤ numThreads) :
    rows ≤ numThreads * ((rows + numThreads - 1) / numThreads) := by
  have h1 := Nat.div_add_mod (rows + numThreads - 1) numThreads
  have h2 := Nat.mod_lt (rows + numThreads - 1) (show 0 < numThreads by omega)
  set m := numThreads * ((rows + numThreads - 1) / numThreads) with hm
  omega

/-- Cumulative coverage: the first `k` workers' ranges exactly cover
`[0, min (k * chunk) rows)`. -/
theorem sum_chunks_eq (f : Nat → Nat) (rows chunk : Nat) :
    ∀ k : Nat,
      (∑ t ∈ Finset.range k, ∑ i ∈ Finset.Ico (t * chunk) (min (t * chunk + chunk) rows), f i)
        = ∑ i ∈ Finset.range (min (k * chunk) rows), f i := by
  intro k
  induction k with
  | zero => simp
  | succ k ih =>
    rw [Finset.sum_range_succ, ih]
    by_cases h : rows ≤ k * chunk
    · have e1 : min (k * chunk) rows = rows := by omega
      have e2 : min (k * chunk + chunk) rows = rows := by omega
      have e3 : min ((k + 1) * chunk) rows = rows := by
        have hk : k * chunk ≤ (k + 1) * chunk := Nat.mul_le_mul_right chunk (by omega)
        omega
      rw [e1, e2, e3]
      have hempty : Finset.Ico (k * chunk) rows = (∅ : Finset Nat) := by
        apply Finset.Ico_eq_empty
        omega
      rw [hempty]
      simp
    · have e1 : min (k * chunk) rows = k * chunk := by omega
      have e2 : min ((k + 1) * chunk) rows = min (k * chunk + chunk) rows := by
        rw [Nat.succ_mul]
      rw [e1, e2]
      rw [Finset.range_eq_Ico]
      apply Finset.sum_Ico_consecutive
      · omega
      · omega

theorem countWithLocalCounter_eq_sum (matrix : Matrix) (threshold : Int) (N : Nat) :
    countWithLocalCounter matrix threshold N
      = ∑ t ∈ Finset.range N,
          ∑ i ∈ Finset.Ico (t * ((matrix.length + N - 1) / N))
              (min (t * ((matrix.length + N - 1) / N) + (matrix.length + N - 1) / N)
                matrix.length),
            rowCount threshold (matrix.getD i []) := by
  simp only [countWithLocalCounter]
  rw [foldl_add_eq, range_map_sum, zero_add]
  apply Finset.sum_congr rfl
  intro t _
  rw [workerLocalCount_eq]

/-- The atomic-accumulator strategy agrees with the sequential scan for every
thread count `≥ 1`. -/
theorem countWithLocalCounter_eq_sequential (matrix : Matrix) (threshold : Int) :
    ∀ N : Nat, 1 ≤ N →
      countWithLocalCounter matrix threshold N = sequentialCount matrix threshold := by
  intro N hN
  rw [countWithLocalCounter_eq_sum, sum_chunks_eq, sequentialCount_eq]
  have h := rows_le_chunk_mul matrix.length N hN
  have e : min (N * ((matrix.length + N - 1) / N)) matrix.length = matrix.length := by omega
  rw [e]

/-! ### The slotted strategy's published value -/

/-- The inner loop of the `countWithContainer` worker never touches the
local counter: the first state component is preserved. -/
theorem containerScan_fst (threshold : Int) :
    ∀ (row : List Int) (s : Nat × Nat),
      (row.foldl (fun s value => if value > threshold then (s.1, s.2 + 1) else s) s).1
        = s.1 := by
  intro row
  induction row with
  | nil => intro s; rfl
  | cons v vs ih =>
    intro s
    simp only [List.foldl_cons]
    by_cases h : v > threshold
    · rw [if_pos h, ih]
    · rw [if_neg h, ih]

/-- The whole scan loop of the `countWithContainer` worker preserves the
local counter, whatever rows it visits and whatever state it starts in. -/
theorem containerOuter_fst (matrix : Matrix) (threshold : Int) :
    ∀ (l : List Nat) (s : Nat × Nat),
      (l.foldl
          (fun s i =>
            (matrix.getD i []).foldl
              (fun s value => if value > threshold then (s.1, s.2 + 1) else s) s)
          s).1
        = s.1 := by
  intro l
  induction l with
  | nil => intro s; rfl
  | cons i is ih =>
    intro s
    rw [List.foldl_cons, ih, containerScan_fst]

theorem containerWorker_fst (matrix : Matrix) (threshold : Int) (a b : Nat) :
    (containerWorker matrix threshold a b).1 = 0 :=
  containerOuter_fst matrix threshold (List.range' a (b - a)) (0, 0)

/-- Each worker of `countWithContainer` publishes `0` into its slot. -/
theorem containerSlotFinal_zero (matrix : Matrix) (threshold : Int) (a b : Nat) :
    containerSlotFinal matrix threshold a b = 0 :=
  containerWorker_fst matrix threshold a b

/-! ### Partition lemmas -/

theorem partition_length (rows N : Nat) : (partition rows N).length = N := by
  simp [partition]

theorem partition_getD (rows N t : Nat) (ht : t < N) :
    (partition rows N).getD t (0, 0)
      = (t * ((rows + N - 1) / N),
         min (t * ((rows + N - 1) / N) + (rows + N - 1) / N) rows) := by
  simp only [partition]
  rw [List.getD_eq_getElem?_getD, List.getElem?_map, List.getElem?_range ht]
  rfl

theorem div_mul_bounds (x c : Nat) (hc : 0 < c) : x / c * c ≤ x ∧ x < x / c * c + c := by
  have h1 := Nat.div_add_mod x c
  have h2 := Nat.mod_lt x hc
  have h3 : x / c * c = c * (x / c) := Nat.mul_comm _ _
  omega

/-! ### Statistics lemmas -/

theorem calculateAverage_eq_specMean (s : List ℝ) : calculateAverage s = specMean s := by
  unfold calculateAverage specMean
  rw [foldl_add_eq, zero_add, List.map_id']

theorem calculateStdDev_eq_sqrt (s : List ℝ) (avg : ℝ) :
    calculateStdDev s avg = Real.sqrt ((s.map (fun t => (t - avg) ^ 2)).sum / s.length) := by
  unfold calculateStdDev
  rw [foldl_add_eq, zero_add]
  congr 2
  apply congrArg
  apply List.map_congr_left
  intro a _
  ring

theorem calculateAverage_replicate (n : Nat) (x : ℝ) (hn : n ≠ 0) :
    calculateAverage (List.replicate n x) = x := by
  unfold calculateAverage
  rw [foldl_add_eq, zero_add, List.map_id', List.sum_replicate, List.length_replicate,
    nsmul_eq_mul]
  exact mul_div_cancel_left₀ x (by exact_mod_cast hn)

theorem calculateStdDev_replicate (n : Nat) (x : ℝ) :
    calculateStdDev (List.replicate n x) x = 0 := by
  unfold calculateStdDev
  rw [foldl_add_eq, zero_add, List.map_replicate, List.sum_replicate]
  simp

/-! ### Indexing helpers -/

theorem getD_map_range {α : Type} (f : Nat → α) (d : α) (n i : Nat) (h : i < n) :
    ((List.range n).map f).getD i d = f i := by
  rw [List.getD_eq_getElem?_getD, List.getElem?_map, List.getElem?_range h]
  rfl

theorem getD_replicate {α : Type} (a d : α) (n i : Nat) (h : i < n) :
    (List.replicate n a).getD i d = a := by
  rw [List.getD_eq_getElem?_getD, List.getElem?_replicate, if_pos h]
  rfl

/-! ### Claim theorems -/

/-- Claim C1: the spec asserts that for every grid, threshold and thread
count in `[1, rows+5]` the slotted strategy (`countWithContainer`), the
atomic-accumulator strategy (`countWithLocalCounter`) and a sequential scan
agree, the slotted result being "correct by accident".  Evaluating the code
at the spec's own example grid (4×4, cell `(i,j) = (i+j) % 256`, threshold
3, 2 threads — a thread count inside `[1, rows+5]`) shows the slotted
strategy returns 0 while the other two return 6: the final overwrite
publishes the never-incremented local counter, so the claimed equivalence
fails and the code contradicts its own comments ("Write the local count
into the container", "Combine partial results"). -/
theorem slotted_equivalence_fails_on_spec_grid :
    countWithContainer (generateMatrix 4 4) 3 2 = 0 ∧
    countWithLocalCounter (generateMatrix 4 4) 3 2 = 6 ∧
    sequentialCount (generateMatrix 4 4) 3 = 6 ∧
    countWithContainer (generateMatrix 4 4) 3 2
      ≠ sequentialCount (generateMatrix 4 4) 3 := by
  decide

/-- Claim C2: `countWithContainer` returns 0 for every matrix, every
threshold and every `numThreads ≥ 1`: each worker's `localCount` is never
incremented (the hot loop increments the shared slot `results[t]` instead),
and the final `results[t] = localCount` overwrites the slot with 0 before
the slots are summed. -/
theorem countWithContainer_always_zero (matrix : Matrix) (threshold : Int)
    (numThreads : Nat) (hN : 1 ≤ numThreads) :
    countWithContainer matrix threshold numThreads = 0 := by
  simp only [countWithContainer]
  rw [foldl_add_eq, range_map_sum, zero_add]
  apply Finset.sum_eq_zero
  intro t _
  exact containerSlotFinal_zero matrix threshold _ _

/-- Witness for C2 at the 4×4 spec grid with threshold 3 and 2 threads. -/
theorem countWithContainer_always_zero_check :
    1 ≤ 2 ∧ countWithContainer (generateMatrix 4 4) 3 2 = 0 :=
  ⟨by decide, countWithContainer_always_zero (generateMatrix 4 4) 3 2 (by decide)⟩

/-- Claim C3: for every grid, threshold and thread count `N ≥ 1`, the
atomic-accumulator strategy `countWithLocalCounter` returns exactly the
sequential scan's count of elements strictly greater than the threshold;
consequently the result is independent of the thread count. -/
theorem countWithLocalCounter_correct (matrix : Matrix) (threshold : Int)
    (N1 N2 : Nat) (h1 : 1 ≤ N1) (h2 : 1 ≤ N2) :
    countWithLocalCounter matrix threshold N1 = sequentialCount matrix threshold ∧
    countWithLocalCounter matrix threshold N1 = countWithLocalCounter matrix threshold N2 := by
  constructor
  · exact countWithLocalCounter_eq_sequential matrix threshold N1 h1
  · rw [countWithLocalCounter_eq_sequential matrix threshold N1 h1,
      countWithLocalCounter_eq_sequential matrix threshold N2 h2]

/-- Witness for C3 at the 4×4 spec grid, threshold 3, thread counts 2 and 7. -/
theorem countWithLocalCounter_correct_check :
    1 ≤ 2 ∧ 1 ≤ 7 ∧
    (countWithLocalCounter (generateMatrix 4 4) 3 2 = sequentialCount (generateMatrix 4 4) 3 ∧
     countWithLocalCounter (generateMatrix 4 4) 3 2 = countWithLocalCounter (generateMatrix 4 4) 3 7) :=
  ⟨by decide, by decide,
    countWithLocalCounter_correct (generateMatrix 4 4) 3 2 7 (by decide) (by decide)⟩

/-- Claim C4: for all `rows ≥ 0` and `numThreads ≥ 1`, the partition
`chunk = ceil(rows/numThreads)`, worker `t` owning
`[t*chunk, min((t+1)*chunk, rows))`, yields exactly `numThreads` ranges
which are ordered (each range ends no later than the next begins), pairwise
disjoint, and whose union is exactly `[0, rows)`; and in the degenerate
case `rows = 2, numThreads = 5` five ranges are produced of which three are
empty. -/
theorem partition_correct (rows N t i j x : Nat) (hN : 1 ≤ N) :
    (partition rows N).length = N ∧
    (t + 1 < N →
      ((partition rows N).getD t (0, 0)).2 ≤ ((partition rows N).getD (t + 1) (0, 0)).1) ∧
    (i < j → j < N →
      covers ((partition rows N).getD i (0, 0)) x = true →
      covers ((partition rows N).getD j (0, 0)) x = false) ∧
    coveredBy (partition rows N) x = decide (x < rows) ∧
    partition 2 5 = [(0, 1), (1, 2), (2, 2), (3, 2), (4, 2)] ∧
    ((partition 2 5).filter (fun p => p.2 ≤ p.1)).length = 3 := by
  refine ⟨partition_length rows N, ?_, ?_, ?_, by decide, by decide⟩
  · intro ht
    rw [partition_getD rows N t (by omega), partition_getD rows N (t + 1) ht]
    have h1 : (t + 1) * ((rows + N - 1) / N)
        = t * ((rows + N - 1) / N) + (rows + N - 1) / N := Nat.succ_mul _ _
    omega
  · intro hij hjN hci
    rw [Bool.eq_false_iff]
    intro hcj
    simp only [covers, Bool.and_eq_true, decide_eq_true_eq] at hci hcj
    rw [partition_getD rows N i (by omega)] at hci
    rw [partition_getD rows N j hjN] at hcj
    have h1 : (i + 1) * ((rows + N - 1) / N)
        = i * ((rows + N - 1) / N) + (rows + N - 1) / N := Nat.succ_mul _ _
    have h2 : (i + 1) * ((rows + N - 1) / N) ≤ j * ((rows + N - 1) / N) :=
      Nat.mul_le_mul_right _ (by omega)
    simp only at hci hcj
    omega
  · by_cases hx : x < rows
    · have hcov : coveredBy (partition rows N) x = true := by
        rw [coveredBy, List.any_eq_true]
        have hle := rows_le_chunk_mul rows N hN
        rcases Nat.eq_zero_or_pos ((rows + N - 1) / N) with hc | hc
        · rw [hc, Nat.mul_zero] at hle
          omega
        · refine ⟨((x / ((rows + N - 1) / N)) * ((rows + N - 1) / N),
            min ((x / ((rows + N - 1) / N)) * ((rows + N - 1) / N)
              + (rows + N - 1) / N) rows), ?_, ?_⟩
          · rw [partition, List.mem_map]
            refine ⟨x / ((rows + N - 1) / N), List.mem_range.mpr ?_, rfl⟩
            have hb := div_mul_bounds x ((rows + N - 1) / N) hc
            have hlt : x / ((rows + N - 1) / N) * ((rows + N - 1) / N)
                < N * ((rows + N - 1) / N) := by omega
            exact Nat.lt_of_mul_lt_mul_right hlt
          · have hb := div_mul_bounds x ((rows + N - 1) / N) hc
            simp only [covers, Bool.and_eq_true, decide_eq_true_eq]
            omega
      rw [hcov, decide_eq_true hx]
    · have hcov : coveredBy (partition rows N) x = false := by
        rw [Bool.eq_false_iff]
        intro h
        rw [coveredBy, List.any_eq_true] at h
        obtain ⟨p, hp, hcp⟩ := h
        rw [partition, List.mem_map] at hp
        obtain ⟨u, _, hu⟩ := hp
        subst hu
        simp only [covers, Bool.and_eq_true, decide_eq_true_eq] at hcp
        omega
      rw [hcov, decide_eq_false hx]

/-- Witness for C4 at `rows = 2`, `numThreads = 5`, adjacent index 0,
range indices 0 and 3, sample point 1. -/
theorem partition_correct_check :
    1 ≤ 5 ∧
    ((partition 2 5).length = 5 ∧
     (0 + 1 < 5 →
       ((partition 2 5).getD 0 (0, 0)).2 ≤ ((partition 2 5).getD (0 + 1) (0, 0)).1) ∧
     (0 < 3 → 3 < 5 →
       covers ((partition 2 5).getD 0 (0, 0)) 1 = true →
       covers ((partition 2 5).getD 3 (0, 0)) 1 = false) ∧
     coveredBy (partition 2 5) 1 = decide (1 < 2) ∧
     partition 2 5 = [(0, 1), (1, 2), (2, 2), (3, 2), (4, 2)] ∧
     ((partition 2 5).filter (fun p => p.2 ≤ p.1)).length = 3) :=
  ⟨by decide, partition_correct 2 5 0 0 3 1 (by decide)⟩

/-- Claim C5: on the spec's 4×4 grid (cell `(i,j) = (i+j) % 256`) with
threshold 3, the sequential count is 6, the 2-thread partition is
`[0,2), [2,4)` with partial counts 1 and 5, and the comparison is strict
(an element equal to the threshold is not counted) — but the two strategies
do not both return 6: `countWithContainer` returns 0 because its workers
publish the never-incremented local counter, so the claim's "both
strategies return the total 6" fails on the code. -/
theorem threshold_semantics_example :
    sequentialCount (generateMatrix 4 4) 3 = 6 ∧
    partition 4 2 = [(0, 2), (2, 4)] ∧
    workerLocalCount (generateMatrix 4 4) 3 0 2 = 1 ∧
    workerLocalCount (generateMatrix 4 4) 3 2 4 = 5 ∧
    countWithLocalCounter (generateMatrix 4 4) 3 2 = 6 ∧
    rowCount 3 [(3 : Int)] = 0 ∧
    countWithContainer (generateMatrix 4 4) 3 2 = 0 := by
  decide

/-- Claim C6: the spec requires the slotted worker never to write the
shared slot during its scan and to publish exactly once afterwards, but the
code's hot loop executes `++results[t]` per matching element: on the 4×4
spec grid with threshold 3, worker 0 (rows `[0,2)`) ends its scan with its
shared slot already incremented to 1 while its local counter is still 0,
and then publishes 0 — the slot is written during the scan, contradicting
the claim. -/
theorem slot_written_during_scan :
    (containerWorker (generateMatrix 4 4) 3 0 2).2 = 1 ∧
    (containerWorker (generateMatrix 4 4) 3 0 2).1 = 0 ∧
    containerSlotFinal (generateMatrix 4 4) 3 0 2 = 0 := by
  decide

/-- Claim C7 counterexample: at `numThreads = 0` the code fails by integer
division by zero in the `chunkSize` computation, and at negative
`numThreads` by the huge vector allocation — in neither case is an
`InvalidArgument` error surfaced, because the code performs no input
validation at all. -/
theorem invalid_threads_failure_kind :
    countWithContainerRun [[(5 : Int)]] 3 0 ≠ Except.error RunFailure.invalidArgument ∧
    countWithContainerRun [[(5 : Int)]] 3 0 = Except.error RunFailure.divisionByZero ∧
    countWithContainerRun [[(5 : Int)]] 3 (-2) = Except.error RunFailure.allocationFailure := by
  refine ⟨?_, rfl, rfl⟩
  intro h
  simp [countWithContainerRun] at h

/-- Claim C7 (amended): for every `numThreads ≤ 0` the counting operation
fails before any worker thread is spawned and performs no counting work —
by division by zero when `numThreads = 0` and by a failed huge allocation
when `numThreads < 0` — but the failure is never `InvalidArgument`; no such
validation exists in the code (and `rows < 0` cannot arise, since the row
count is the size of a `std::vector`). -/
theorem countWithContainerRun_nonpositive (matrix : Matrix) (threshold : Int)
    (n : Int) (hn : n ≤ 0) :
    countWithContainerRun matrix threshold n
        = Except.error (if n < 0 then RunFailure.allocationFailure else RunFailure.divisionByZero) ∧
    countWithContainerRun matrix threshold n ≠ Except.error RunFailure.invalidArgument := by
  by_cases h : n < 0
  · rw [countWithContainerRun, if_pos h, if_pos h]
    refine ⟨rfl, ?_⟩
    intro heq
    simp at heq
  · have h0 : n = 0 := by omega
    subst h0
    rw [countWithContainerRun]
    norm_num
    intro heq
    simp at heq

/-- Witness for the amended C7 at `numThreads = -3`. -/
theorem countWithContainerRun_nonpositive_check :
    (-3 : Int) ≤ 0 ∧
    (countWithContainerRun [[(5 : Int)]] 3 (-3)
        = Except.error
            (if (-3 : Int) < 0 then RunFailure.allocationFailure else RunFailure.divisionByZero) ∧
     countWithContainerRun [[(5 : Int)]] 3 (-3) ≠ Except.error RunFailure.invalidArgument) :=
  ⟨by decide, countWithContainerRun_nonpositive [[(5 : Int)]] 3 (-3) (by decide)⟩

/-- Claim C8: the mean is the arithmetic average and the standard deviation
the population standard deviation (divide by `N`): for every `x`,
`summarize([x,x,x]) = (x, 0)`; `summarize([1,2,3]) = (2, sqrt(2/3))`; and
every all-identical (in particular every single-element) sample sequence
has standard deviation 0. -/
theorem summarize_stats (x : ℝ) (n : Nat) (hn : n ≠ 0) :
    summarize [x, x, x] = (x, 0) ∧
    summarize [(1 : ℝ), 2, 3] = (2, Real.sqrt (2 / 3)) ∧
    summarize (List.replicate n x) = (x, 0) := by
  refine ⟨?_, ?_, ?_⟩
  · have h3 : ([x, x, x] : List ℝ) = List.replicate 3 x := rfl
    rw [summarize, h3, calculateAverage_replicate 3 x (by norm_num),
      calculateStdDev_replicate]
  · have ha : calculateAverage [(1 : ℝ), 2, 3] = 2 := by
      simp [calculateAverage]
      norm_num
    have hs : calculateStdDev [(1 : ℝ), 2, 3] 2 = Real.sqrt (2 / 3) := by
      simp [calculateStdDev]
      norm_num
    rw [summarize, ha, hs]
  · rw [summarize, calculateAverage_replicate n x hn, calculateStdDev_replicate]

/-- Witness for C8 at `x = 5`, `n = 1`. -/
theorem summarize_stats_check :
    (1 : Nat) ≠ 0 ∧
    (summarize [(5 : ℝ), 5, 5] = (5, 0) ∧
     summarize [(1 : ℝ), 2, 3] = (2, Real.sqrt (2 / 3)) ∧
     summarize (List.replicate 1 (5 : ℝ)) = (5, 0)) :=
  ⟨by decide, summarize_stats 5 1 (by decide)⟩

/-- Claim C9 counterexample: on the empty sample sequence the code does not
fail — `calculateAverage`/`calculateStdDev` have no emptiness branch and
divide by the length anyway (`0.0/0.0`, NaN in C++ doubles; `0` in the
real-number model where `x / 0 = 0`), returning an ordinary value — whereas
the spec contract demands an `EmptyInput` failure. -/
theorem summarize_empty_no_failure :
    summarize ([] : List ℝ) = (0, 0) ∧
    summarizeSpec ([] : List ℝ) = Except.error StatError.emptyInput := by
  constructor
  · have h1 : calculateAverage ([] : List ℝ) = 0 := by simp [calculateAverage]
    have h2 : calculateStdDev ([] : List ℝ) 0 = 0 := by simp [calculateStdDev]
    rw [summarize, h1, h2]
  · simp [summarizeSpec]

/-- Claim C9 (amended): the code never fails on empty input (it divides by
zero and returns a non-signalling value), but on every non-empty sample
sequence it agrees with the spec's contract: `summarizeSpec` succeeds and
returns exactly the code's mean and population standard deviation. -/
theorem summarizeSpec_ok_nonempty (s : List ℝ) (h : s ≠ []) :
    summarizeSpec s = Except.ok (summarize s) := by
  rw [summarizeSpec, if_neg (by simpa using h)]
  have hm : calculateAverage s = specMean s := calculateAverage_eq_specMean s
  have hsd : specStdDev s = calculateStdDev s (specMean s) := by
    rw [specStdDev, calculateStdDev_eq_sqrt]
  rw [summarize, hm, hsd]

/-- Witness for the amended C9 at the sample list `[1, 2, 3]`. -/
theorem summarizeSpec_ok_nonempty_check :
    ([(1 : ℝ), 2, 3] ≠ []) ∧
    summarizeSpec [(1 : ℝ), 2, 3] = Except.ok (summarize [(1 : ℝ), 2, 3]) :=
  ⟨by simp, summarizeSpec_ok_nonempty [(1 : ℝ), 2, 3] (by simp)⟩

/-- Claim C10 counterexample: the deterministic generator of
`src/unnamed/part_001` does not fill cell `(i,j)` with `(i+j) % 256` — its
cell `(0,1)` is 150, not 1. -/
theorem variant_generator_cell_differs :
    ((Variant.generateMatrix 2 2).getD 0 []).getD 1 0 ≠ (((0 + 1) % 256 : Nat) : Int) := by
  decide

/-- Claim C10 (amended): the `parallel_chunks.cpp` deterministic generator
fills cell `(i,j)` with `(i+j) % 256`, while the `part_001` deterministic
generator fills every cell with the constant 150; both are pure functions
of `(rows, cols)`, so two calls with identical dimensions yield identical
grids. -/
theorem generator_cells (r c i j : Nat) (hi : i < r) (hj : j < c) :
    ((generateMatrix r c).getD i []).getD j 0 = (((i + j) % 256 : Nat) : Int) ∧
    ((Variant.generateMatrix r c).getD i []).getD j 0 = (150 : Int) := by
  constructor
  · rw [generateMatrix, getD_map_range _ _ r i hi, getD_map_range _ _ c j hj]
  · rw [Variant.generateMatrix, getD_replicate _ _ r i hi, getD_replicate _ _ c j hj]

/-- Witness for the amended C10 at `rows = cols = 2`, cell `(0, 1)`. -/
theorem generator_cells_check :
    0 < 2 ∧ 1 < 2 ∧
    (((generateMatrix 2 2).getD 0 []).getD 1 0 = (((0 + 1) % 256 : Nat) : Int) ∧
     ((Variant.generateMatrix 2 2).getD 0 []).getD 1 0 = (150 : Int)) :=
  ⟨by decide, by decide, generator_cells 2 2 0 1 (by decide) (by decide)⟩

end Perf
